import Mathlib

/-!
Shallow embedding of the Multi-Site Documentation Server core
(`src/index.ts`): the static site registry `DOC_SITES`, the URL
normalization performed by the `fetch_doc_page` handler, and the
line-oriented search with context extraction performed by the
`search_docs` handler.

JavaScript strings are modelled as lists of characters;
`String.prototype.startsWith`, `includes`, `toLowerCase` and
`split("\n")` are modelled by the corresponding list operations
(prefix test, contiguous-substring test, character-wise lower-casing,
splitting on the newline character).
-/

namespace DocServer

/-- JavaScript strings, modelled as lists of characters. -/
abbrev JSString := List Char

/-- `s.toLowerCase()`, character-wise. -/
def toLowerJS (s : JSString) : JSString := s.map Char.toLower

/-- `s.startsWith(p)`: `p` is a prefix of `s`. -/
def startsWithJS (s p : JSString) : Bool := decide (p <+: s)

/-- `s.includes(sub)`: `sub` occurs in `s` as a contiguous substring. -/
def includesJS (s sub : JSString) : Bool := decide (sub <:+: s)

/-- `s.split("\n")`: split on the newline character as the sole
delimiter; the result always has at least one (possibly empty) segment. -/
def splitOnNewline : JSString → List JSString
  | [] => [[]]
  | c :: cs =>
    match splitOnNewline cs with
    | [] => [[c]]
    | l :: ls => if c = '\n' then [] :: l :: ls else (c :: l) :: ls

/-- A documentation site descriptor (interface `DocSite` in the source). -/
structure DocSite where
  name : JSString
  baseUrl : JSString
  indexPath : JSString
deriving DecidableEq, Repr

/-- The static registry `DOC_SITES` from the source, as an ordered
association list from site key to descriptor. -/
def DOC_SITES : List (JSString × DocSite) :=
  [("module-federation".toList,
    ⟨"Module Federation".toList, "https://module-federation.io".toList,
     "/llms.txt".toList⟩),
   ("modernjs".toList,
    ⟨"Modern.js".toList, "https://modernjs.dev".toList, "/llms.txt".toList⟩),
   ("firebase".toList,
    ⟨"Firebase".toList, "https://firebase.google.com/docs".toList,
     "/llms.txt".toList⟩)]

/-- The ordered list of valid site keys (`Object.keys(DOC_SITES)`). -/
def listValidKeys : List JSString := DOC_SITES.map Prod.fst

/-- The unknown-site failure: the offending key together with the list of
valid keys reported by the handlers' error message. -/
structure UnknownSiteError where
  key : JSString
  validKeys : List JSString
deriving DecidableEq, Repr

/-- Registry lookup `DOC_SITES[site]` combined with the handlers'
`if (!docSite)` error branch: a known key yields its key/descriptor
entry, an unknown key yields `UnknownSiteError` carrying the valid keys. -/
def resolve (key : JSString) : Except UnknownSiteError (JSString × DocSite) :=
  match DOC_SITES.find? (fun p => decide (p.1 = key)) with
  | some p => Except.ok p
  | none => Except.error ⟨key, listValidKeys⟩

/-- URL normalization in the `fetch_doc_page` handler: absolute URLs pass
through unchanged, rooted paths are appended to the base URL, bare paths
get a separating slash inserted. -/
def resolvePageLocator (site : DocSite) (url : JSString) : JSString :=
  if startsWithJS url "http://".toList || startsWithJS url "https://".toList then
    url
  else if startsWithJS url "/".toList then
    site.baseUrl ++ url
  else
    site.baseUrl ++ "/".toList ++ url

/-- The effective comparison text of the `search_docs` handler: lower-cased
when `caseInsensitive` is set, unchanged otherwise. -/
def effectiveText (ci : Bool) (s : JSString) : JSString :=
  if ci then toLowerJS s else s

/-- The context array pushed for a matching line: the previous line when
the index is positive, the line itself, and the next line when the index
is not the last one (all read from the original, non-lower-cased lines). -/
def contextAt (lines : List JSString) (i : Nat) : List JSString :=
  (if 0 < i then [lines.getD (i - 1) []] else []) ++
  [lines.getD i []] ++
  (if i < lines.length - 1 then [lines.getD (i + 1) []] else [])

/-- The indices of the lines the `search_docs` handler matches, in the
order `forEach` visits them. -/
def matchedIndices (text query : JSString) (ci : Bool) : List Nat :=
  (List.range (splitOnNewline text).length).filter fun i =>
    includesJS (effectiveText ci ((splitOnNewline text).getD i []))
      (effectiveText ci query)

/-- The search core of the `search_docs` handler: visit the lines in
order, and for each line whose effective text contains the effective
query push its context. -/
def search (text query : JSString) (ci : Bool) : List (List JSString) :=
  (List.range (splitOnNewline text).length).filterMap fun i =>
    if includesJS (effectiveText ci ((splitOnNewline text).getD i []))
        (effectiveText ci query) then
      some (contextAt (splitOnNewline text) i)
    else none

/-- The specification's match condition: the effective query occurs in the
effective line text as a contiguous substring. -/
def specLineMatches (ci : Bool) (query line : JSString) : Prop :=
  effectiveText ci query <:+: effectiveText ci line

instance (ci : Bool) (query line : JSString) :
    Decidable (specLineMatches ci query line) :=
  inferInstanceAs (Decidable (effectiveText ci query <:+: effectiveText ci line))

/-- The specification's MatchContext for a matching line `i`: line `i - 1`
exactly when `i > 0`, line `i` always, line `i + 1` exactly when `i` is
not the last index — all taken from the original lines. -/
def specContext (lines : List JSString) (i : Nat) (hi : i < lines.length) :
    List JSString :=
  (if _h : 0 < i then [lines[i - 1]] else []) ++
  [lines[i]] ++
  (if h : i + 1 < lines.length then [lines[i + 1]] else [])

theorem filterMap_if_eq_map_filter {α β : Type} (p : α → Bool) (f : α → β)
    (l : List α) :
    (l.filterMap fun a => if p a then some (f a) else none) =
      (l.filter p).map f := by
  induction l with
  | nil => rfl
  | cons a l ih =>
    by_cases h : p a <;>
      simp [List.filterMap_cons, List.filter_cons, h, ih]

theorem search_eq_map_matchedIndices (text query : JSString) (ci : Bool) :
    search text query ci =
      (matchedIndices text query ci).map (contextAt (splitOnNewline text)) := by
  unfold search matchedIndices
  exact filterMap_if_eq_map_filter _ _ _

theorem mem_matchedIndices (text query : JSString) (ci : Bool) (i : Nat) :
    i ∈ matchedIndices text query ci ↔
      ∃ h : i < (splitOnNewline text).length,
        specLineMatches ci query (splitOnNewline text)[i] := by
  unfold matchedIndices
  simp only [List.mem_filter, List.mem_range]
  constructor
  · rintro ⟨hi, hp⟩
    rw [List.getD_eq_getElem _ _ hi] at hp
    exact ⟨hi, of_decide_eq_true hp⟩
  · rintro ⟨hi, hp⟩
    refine ⟨hi, ?_⟩
    rw [List.getD_eq_getElem _ _ hi]
    exact decide_eq_true hp

theorem contextAt_eq_specContext (lines : List JSString) (i : Nat)
    (hi : i < lines.length) :
    contextAt lines i = specContext lines i hi := by
  unfold contextAt specContext
  by_cases h0 : 0 < i <;> by_cases h2 : i + 1 < lines.length
  · have h2' : i < lines.length - 1 := by omega
    simp (disch := omega) [h0, h2, h2', List.getElem?_eq_getElem]
  · have h2' : ¬ i < lines.length - 1 := by omega
    simp (disch := omega) [h0, h2, h2', List.getElem?_eq_getElem]
  · have h2' : i < lines.length - 1 := by omega
    simp (disch := omega) [h0, h2, h2', List.getElem?_eq_getElem]
  · have h2' : ¬ i < lines.length - 1 := by omega
    simp (disch := omega) [h0, h2, h2', List.getElem?_eq_getElem]

/-- C1: `resolvePageLocator` classifies the raw target by precedence: a
target beginning with `http://` or `https://` passes through unchanged for
every site; otherwise a target beginning with `/` is appended to the base
location; otherwise the base location, a separating slash and the target
are concatenated. -/
theorem resolvePageLocator_precedence (site : DocSite) (url : JSString) :
    (("http://".toList <+: url ∨ "https://".toList <+: url) →
        resolvePageLocator site url = url) ∧
    (¬ ("http://".toList <+: url ∨ "https://".toList <+: url) →
        "/".toList <+: url →
        resolvePageLocator site url = site.baseUrl ++ url) ∧
    (¬ ("http://".toList <+: url ∨ "https://".toList <+: url) →
        ¬ "/".toList <+: url →
        resolvePageLocator site url = site.baseUrl ++ "/".toList ++ url) := by
  refine ⟨fun h => ?_, fun h1 h2 => ?_, fun h1 h2 => ?_⟩
  · have hb : (startsWithJS url "http://".toList ||
        startsWithJS url "https://".toList) = true := by
      rcases h with h | h
      · rw [startsWithJS, decide_eq_true h, Bool.true_or]
      · rw [startsWithJS, startsWithJS, decide_eq_true h, Bool.or_true]
    unfold resolvePageLocator
    rw [if_pos hb]
  · push_neg at h1
    have hb : (startsWithJS url "http://".toList ||
        startsWithJS url "https://".toList) = false := by
      rw [startsWithJS, startsWithJS, decide_eq_false h1.1,
        decide_eq_false h1.2, Bool.or_false]
    have hs : startsWithJS url "/".toList = true := decide_eq_true h2
    unfold resolvePageLocator
    rw [hb, hs]
    simp
  · push_neg at h1
    have hb : (startsWithJS url "http://".toList ||
        startsWithJS url "https://".toList) = false := by
      rw [startsWithJS, startsWithJS, decide_eq_false h1.1,
        decide_eq_false h1.2, Bool.or_false]
    have hs : startsWithJS url "/".toList = false := decide_eq_false h2
    unfold resolvePageLocator
    rw [hb, hs]
    simp

/-- Witness for C1 at concrete inputs: an absolute URL, a rooted path and
a bare path against a concrete site. -/
theorem resolvePageLocator_precedence_witness :
    resolvePageLocator ⟨"S".toList, "https://base".toList, "/i".toList⟩
        "https://x/y".toList = "https://x/y".toList ∧
    resolvePageLocator ⟨"S".toList, "https://base".toList, "/i".toList⟩
        "/a/b".toList = "https://base".toList ++ "/a/b".toList ∧
    resolvePageLocator ⟨"S".toList, "https://base".toList, "/i".toList⟩
        "a/b".toList = "https://base".toList ++ "/".toList ++ "a/b".toList :=
  ⟨(resolvePageLocator_precedence _ _).1 (Or.inr (by decide)),
   (resolvePageLocator_precedence _ _).2.1 (by decide) (by decide),
   (resolvePageLocator_precedence _ _).2.2 (by decide) (by decide)⟩

/-- C6: on the empty raw target, `resolvePageLocator` returns the base
location followed by a single slash, for every site. -/
theorem resolvePageLocator_empty_target (site : DocSite) :
    resolvePageLocator site [] = site.baseUrl ++ "/".toList := by
  have h1 : ¬ "http://".toList <+: ([] : JSString) := by decide
  have h2 : ¬ "https://".toList <+: ([] : JSString) := by decide
  have h3 : ¬ "/".toList <+: ([] : JSString) := by decide
  simp [resolvePageLocator, startsWithJS, h1, h2, h3]

/-- C8: every descriptor in the static registry satisfies the invariants:
the keys are pairwise distinct, no base URL has a trailing slash, and
every index locator begins with a slash. -/
theorem registry_invariants :
    (DOC_SITES.map Prod.fst).Nodup ∧
    ∀ p ∈ DOC_SITES,
      p.2.baseUrl.getLast? ≠ some '/' ∧ "/".toList <+: p.2.indexPath := by
  decide

/-- C5: resolving a registered key succeeds with the entry carrying that
very key; resolving an unregistered key fails with an `UnknownSiteError`
carrying the key and the full list of valid keys. -/
theorem resolve_known_or_unknown (k : JSString) :
    (k ∈ listValidKeys → ∃ d, resolve k = Except.ok (k, d)) ∧
    (k ∉ listValidKeys → resolve k = Except.error ⟨k, listValidKeys⟩) := by
  constructor
  · intro hk
    rw [listValidKeys, List.mem_map] at hk
    rcases hk with ⟨p, hp, hpk⟩
    have hsome : (DOC_SITES.find? (fun q => decide (q.1 = k))).isSome := by
      rw [List.find?_isSome]
      exact ⟨p, hp, by simp [hpk]⟩
    rcases Option.isSome_iff_exists.mp hsome with ⟨q, hq⟩
    have hqk : q.1 = k := by simpa using List.find?_some hq
    refine ⟨q.2, ?_⟩
    unfold resolve
    rw [hq, ← hqk]
  · intro hk
    have hnone : DOC_SITES.find? (fun q => decide (q.1 = k)) = none := by
      rw [List.find?_eq_none]
      intro p hp
      simp only [decide_eq_true_eq]
      intro hpk
      exact hk (by rw [listValidKeys]; exact List.mem_map.mpr ⟨p, hp, hpk⟩)
    unfold resolve
    rw [hnone]

/-- Witness for C5: the registered key `firebase` resolves to its entry,
and the unregistered key `nosite` fails with the valid-key list. -/
theorem resolve_known_or_unknown_witness :
    (∃ d, resolve "firebase".toList = Except.ok ("firebase".toList, d)) ∧
    resolve "nosite".toList = Except.error ⟨"nosite".toList, listValidKeys⟩ :=
  ⟨(resolve_known_or_unknown _).1 (by decide),
   (resolve_known_or_unknown _).2 (by decide)⟩

/-- C2: a line is matched exactly when its effective text contains the
effective query as a contiguous substring (lower-cased on both sides when
`caseInsensitive`, exact otherwise); in particular the empty query matches
every line, so the number of match contexts equals the number of lines. -/
theorem search_match_condition (text query : JSString) (ci : Bool) :
    (∀ i : Nat, i ∈ matchedIndices text query ci ↔
      ∃ h : i < (splitOnNewline text).length,
        specLineMatches ci query (splitOnNewline text)[i]) ∧
    (query = [] →
      (search text query ci).length = (splitOnNewline text).length) := by
  refine ⟨mem_matchedIndices text query ci, fun hq => ?_⟩
  subst hq
  rw [search_eq_map_matchedIndices, List.length_map]
  unfold matchedIndices
  rw [List.filter_eq_self.mpr, List.length_range]
  intro i _
  apply decide_eq_true
  show effectiveText ci [] <:+: _
  have he : effectiveText ci [] = [] := by cases ci <;> rfl
  rw [he]
  exact ⟨[], _, rfl⟩

/-- Witness for C2: with the empty query, the two-line text yields as many
contexts as lines. -/
theorem search_match_condition_witness :
    (search "ab\ncd".toList [] true).length =
      (splitOnNewline "ab\ncd".toList).length :=
  (search_match_condition "ab\ncd".toList [] true).2 rfl

/-- C3: every emitted match context comes from a matching line index `i`
and consists of line `i - 1` exactly when `i > 0`, line `i` always, and
line `i + 1` exactly when `i` is not the last index — all read from the
original, non-lower-cased lines. -/
theorem search_context_shape (text query : JSString) (ci : Bool)
    (c : List JSString) (hc : c ∈ search text query ci) :
    ∃ i, ∃ hi : i < (splitOnNewline text).length,
      specLineMatches ci query (splitOnNewline text)[i] ∧
      c = specContext (splitOnNewline text) i hi := by
  rw [search_eq_map_matchedIndices] at hc
  rcases List.mem_map.mp hc with ⟨i, hi, hci⟩
  rcases (mem_matchedIndices text query ci i).mp hi with ⟨hlt, hm⟩
  exact ⟨i, hlt, hm, by rw [← hci, contextAt_eq_specContext]⟩

/-- Witness for C3: the context emitted for the match on the last line of
a two-line text contains the previous line and no following line. -/
theorem search_context_shape_witness :
    ∃ i, ∃ hi : i < (splitOnNewline "ab\ncd".toList).length,
      specLineMatches true "cd".toList (splitOnNewline "ab\ncd".toList)[i] ∧
      ["ab".toList, "cd".toList] =
        specContext (splitOnNewline "ab\ncd".toList) i hi :=
  search_context_shape "ab\ncd".toList "cd".toList true
    ["ab".toList, "cd".toList] (by decide)

/-- C4: the search result is exactly the contexts of the matched line
indices, one per index, and those indices are strictly ascending (so never
re-sorted by any other key). -/
theorem search_ordered_one_per_line (text query : JSString) (ci : Bool) :
    search text query ci =
      (matchedIndices text query ci).map (contextAt (splitOnNewline text)) ∧
    List.Pairwise (fun a b => a < b) (matchedIndices text query ci) := by
  refine ⟨search_eq_map_matchedIndices text query ci, ?_⟩
  unfold matchedIndices
  exact List.Pairwise.sublist (List.filter_sublist _) (List.pairwise_lt_range _)

/-- C7: when no line of the text matches the query, the search result is
the empty sequence. -/
theorem search_no_match_empty (text query : JSString) (ci : Bool)
    (h : ∀ line ∈ splitOnNewline text, ¬ specLineMatches ci query line) :
    search text query ci = [] := by
  rw [search_eq_map_matchedIndices]
  have hmi : matchedIndices text query ci = [] := by
    unfold matchedIndices
    rw [List.filter_eq_nil_iff]
    intro i hi
    rw [List.mem_range] at hi
    rw [List.getD_eq_getElem _ _ hi]
    simp only [includesJS, decide_eq_true_eq]
    exact h _ (List.getElem_mem hi)
  rw [hmi, List.map_nil]

/-- Witness for C7: a query contained in no line yields the empty result. -/
theorem search_no_match_empty_witness :
    search "ab\ncd".toList "zz".toList true = [] :=
  search_no_match_empty "ab\ncd".toList "zz".toList true (by decide)

/-- C9: a line index matched under exact comparison is also matched under
case-insensitive comparison. -/
theorem matched_mono_caseInsensitive (text query : JSString) (i : Nat)
    (h : i ∈ matchedIndices text query false) :
    i ∈ matchedIndices text query true := by
  rcases (mem_matchedIndices text query false i).mp h with ⟨hi, hm⟩
  refine (mem_matchedIndices text query true i).mpr ⟨hi, ?_⟩
  have hm' : query <:+: (splitOnNewline text)[i] := hm
  show toLowerJS query <:+: toLowerJS (splitOnNewline text)[i]
  exact hm'.map Char.toLower

/-- Witness for C9: index 0 of `"Ab\ncd"` matches `"A"` exactly, hence
also case-insensitively. -/
theorem matched_mono_caseInsensitive_witness :
    0 ∈ matchedIndices "Ab\ncd".toList "A".toList true :=
  matched_mono_caseInsensitive "Ab\ncd".toList "A".toList 0 (by decide)

/-- C10: searching the empty text: the split yields the single empty line,
so the empty query yields exactly one context consisting of only that
empty line (no before or after entry), and a non-empty query yields the
empty result. -/
theorem search_empty_text (query : JSString) (ci : Bool) :
    (query = [] → search [] query ci = [[[]]]) ∧
    (query ≠ [] → search [] query ci = []) := by
  constructor
  · rintro rfl
    cases ci <;> rfl
  · intro hq
    rw [search_eq_map_matchedIndices]
    have hmi : matchedIndices [] query ci = [] := by
      unfold matchedIndices
      rw [List.filter_eq_nil_iff]
      intro i hi
      have hi0 : i = 0 := by
        have h1 : (splitOnNewline ([] : JSString)).length = 1 := rfl
        rw [List.mem_range, h1] at hi
        omega
      subst hi0
      simp only [includesJS, decide_eq_true_eq]
      intro hcon
      have he : effectiveText ci ((splitOnNewline ([] : JSString)).getD 0 []) =
          [] := by cases ci <;> rfl
      rw [he, List.infix_nil] at hcon
      apply hq
      cases ci
      · exact hcon
      · exact List.map_eq_nil_iff.mp hcon
    rw [hmi, List.map_nil]

/-- Witness for C10: the empty query on the empty text yields one context
holding the single empty line; a non-empty query yields none. -/
theorem search_empty_text_witness :
    search [] [] true = [[[]]] ∧ search [] "a".toList true = [] :=
  ⟨(search_empty_text [] true).1 rfl,
   (search_empty_text "a".toList true).2 (by decide)⟩
